import Mathlib

/-!
Verification of the core bin-packing allocator of the GRC transport planner
(`compute_beds_and_trucks` in `grc_transport_app.py`).

The allocator takes a finite ordered sequence of panel records and runs two
sequential greedy first-fit passes: panels into beds (constrained by
`bed_width` on cumulative depth and `bed_weight_limit` on cumulative weight),
then bed summaries into trucks (constrained by `truck_max_length` on
cumulative length and `truck_weight_limit` on cumulative weight).

Numeric panel fields are modelled as rationals (the Python code manipulates
plain numbers with `+`, `sum`, `max` and `<=` only); the panel type label is
modelled as a string.
-/

namespace GRC

/-- A normalized panel record, as produced by the upstream parser:
a dict with keys `Type`, `Height`, `Width`, `Depth`, `Weight`.
(`Type` is a reserved word in Lean, hence the field name `ptype`.) -/
structure Panel where
  ptype : String
  Height : ℚ
  Width : ℚ
  Depth : ℚ
  Weight : ℚ
deriving DecidableEq

/-- One iteration of the inner loop of the bed-packing pass
(lines 170-179 of `grc_transport_app.py`): scan the open beds in order,
append the panel to the first bed where cumulative depth stays within
`bed_width` and cumulative weight stays within `bed_weight_limit`;
if none admits it, append a new bed holding just this panel. -/
def placePanel (bed_width bed_weight_limit : ℚ) :
    List (List Panel) → Panel → List (List Panel)
  | [], panel => [[panel]]
  | bed :: rest, panel =>
    let used_depth := (bed.map fun p => p.Depth).sum
    let total_weight := (bed.map fun p => p.Weight).sum
    if used_depth + panel.Depth ≤ bed_width ∧
        total_weight + panel.Weight ≤ bed_weight_limit then
      (bed ++ [panel]) :: rest
    else
      bed :: placePanel bed_width bed_weight_limit rest panel

/-- The bed-packing pass (lines 168-179): fold `placePanel` over the panels
in input order, starting from no open beds. -/
def packBeds (bed_width bed_weight_limit : ℚ) (panels : List Panel) :
    List (List Panel) :=
  panels.foldl (placePanel bed_width bed_weight_limit) []

/-- A bed summary record (lines 191-198): a dict with keys `Length`,
`Height`, `Width`, `Weight`, `Num Panels`, `Panel Types`. -/
structure BedSummary where
  Length : ℚ
  Height : ℚ
  Width : ℚ
  Weight : ℚ
  numPanels : ℕ
  panelTypes : List String
deriving DecidableEq

/-- Python's built-in `max` over a non-empty sequence of numbers.
(The `[]` case is unreachable in the program: `max` is only applied to
beds, which are non-empty by construction; Python would raise there.) -/
def listMax : List ℚ → ℚ
  | [] => 0
  | [x] => x
  | x :: y :: rest => max x (listMax (y :: rest))

/-- Python's `str.lower()`: lowercase every character. -/
def pyLower (s : String) : String :=
  ⟨s.data.map Char.toLower⟩

/-- Python's `str.strip()`: drop whitespace from both ends. -/
def pyStrip (s : String) : String :=
  ⟨((s.data.dropWhile Char.isWhitespace).reverse.dropWhile
      Char.isWhitespace).reverse⟩

/-- The filter on a panel's type label used when collecting `Panel Types`
(line 189): keep the label iff its stripped, lowercased form is not one of
`""`, `"nan"`, `"none"`.  (The `pd.notna` and `isinstance(..., str)` guards
are identically true here since our `ptype` is always a string.) -/
def keepType (s : String) : Bool :=
  let t := pyLower (pyStrip s)
  !(t == "" || t == "nan" || t == "none")

/-- Summarize one bed (lines 182-198): `Length` is the max member width,
`Height` the max member height, `Width` the `bed_width` capacity constant,
`Weight` the sum of member weights, `Num Panels` the member count, and
`Panel Types` the stripped labels of the members passing `keepType`. -/
def summarize (bed_width : ℚ) (bed : List Panel) : BedSummary :=
  ⟨listMax (bed.map fun p => p.Width),
   listMax (bed.map fun p => p.Height),
   bed_width,
   (bed.map fun p => p.Weight).sum,
   bed.length,
   (bed.filter fun p => keepType p.ptype).map fun p => pyStrip p.ptype⟩

/-- One iteration of the inner loop of the truck-packing pass
(lines 201-211): the same first-fit placement, over bed summaries,
with cumulative `Length` against `truck_max_length` and cumulative
`Weight` against `truck_weight_limit`. -/
def placeBed (truck_max_length truck_weight_limit : ℚ) :
    List (List BedSummary) → BedSummary → List (List BedSummary)
  | [], bed => [[bed]]
  | truck :: rest, bed =>
    let used_length := (truck.map fun b => b.Length).sum
    let total_weight := (truck.map fun b => b.Weight).sum
    if used_length + bed.Length ≤ truck_max_length ∧
        total_weight + bed.Weight ≤ truck_weight_limit then
      (truck ++ [bed]) :: rest
    else
      truck :: placeBed truck_max_length truck_weight_limit rest bed

/-- The truck-packing pass (lines 200-211): fold `placeBed` over the bed
summaries in bed-creation order, starting from no open trucks. -/
def packTrucks (truck_max_length truck_weight_limit : ℚ)
    (beds : List BedSummary) : List (List BedSummary) :=
  beds.foldl (placeBed truck_max_length truck_weight_limit) []

/-- The whole core (lines 167-213): pack panels into beds, summarize each
bed in creation order, pack the summaries into trucks; return the bed
summaries and the trucks.  Parameter order follows the Python signature
`(panels, bed_width, bed_weight_limit, truck_weight_limit, truck_max_length)`;
the Python defaults are 2400, 2500, 15000, 13620. -/
def compute_beds_and_trucks (panels : List Panel)
    (bed_width bed_weight_limit truck_weight_limit truck_max_length : ℚ) :
    List BedSummary × List (List BedSummary) :=
  let beds := packBeds bed_width bed_weight_limit panels
  let bed_summaries := beds.map (summarize bed_width)
  let trucks := packTrucks truck_max_length truck_weight_limit bed_summaries
  (bed_summaries, trucks)

/-! ## Specification-side first-fit

The following definitions follow the words of the specification
("first-fit: scan existing bins in creation order; place the item into the
*first* bin that admits it; if no existing bin admits it, open a new bin
containing only that item"), written independently of the code's loop:
the first admitting bin is located with `List.findIdx?`. -/

/-- Append `x` to the bin at index `i` (used by the spec-side first-fit). -/
def firstFitInsert {α : Type} : List (List α) → ℕ → α → List (List α)
  | [], _, x => [[x]]
  | bin :: bins, 0, x => (bin ++ [x]) :: bins
  | bin :: bins, n + 1, x => bin :: firstFitInsert bins n x

/-- Spec-side first-fit step: find the first bin (in creation order) that
admits `x` and append `x` to it; if none does, open a new bin `[x]` at
the end. -/
def firstFitStep {α : Type} (admits : List α → α → Bool)
    (bins : List (List α)) (x : α) : List (List α) :=
  match bins.findIdx? fun bin => admits bin x with
  | some i => firstFitInsert bins i x
  | none => bins ++ [[x]]

/-- Spec-side first-fit pass: process items in input order. -/
def firstFit {α : Type} (admits : List α → α → Bool) (xs : List α) :
    List (List α) :=
  xs.foldl (firstFitStep admits) []

/-- Spec-side admission criterion for a panel joining a bed: cumulative
depth stays `≤ bed_width` and cumulative weight stays `≤ bed_weight_limit`. -/
def bedAdmits (bed_width bed_weight_limit : ℚ) (bed : List Panel)
    (panel : Panel) : Bool :=
  decide ((bed.map fun p => p.Depth).sum + panel.Depth ≤ bed_width) &&
  decide ((bed.map fun p => p.Weight).sum + panel.Weight ≤ bed_weight_limit)

/-- Spec-side admission criterion for a bed summary joining a truck:
cumulative length stays `≤ truck_max_length` and cumulative weight stays
`≤ truck_weight_limit`. -/
def truckAdmits (truck_max_length truck_weight_limit : ℚ)
    (truck : List BedSummary) (bed : BedSummary) : Bool :=
  decide ((truck.map fun b => b.Length).sum + bed.Length ≤ truck_max_length) &&
  decide ((truck.map fun b => b.Weight).sum + bed.Weight ≤ truck_weight_limit)

/-! ## Generic first-fit placement (shared proof infrastructure)

`ffPlace` abstracts the common shape of `placePanel` and `placeBed`
(the code's two inner loops differ only in the admission test), so the
structural lemmas are proved once. -/

/-- Generic single-item placement with the code's loop structure. -/
def ffPlace {α : Type} (admits : List α → α → Bool) :
    List (List α) → α → List (List α)
  | [], x => [[x]]
  | bin :: rest, x =>
    if admits bin x then (bin ++ [x]) :: rest
    else bin :: ffPlace admits rest x

/-! ## Concrete fixtures for witnesses and counterexamples -/

/-- A small well-formed panel: positive dimensions, non-negative weight. -/
def wPanel : Panel := ⟨"A", 100, 100, 100, 10⟩

/-- A panel whose depth (3000) exceeds the default `bed_width` (2400) and
whose weight (9000) exceeds the default `bed_weight_limit` (2500). -/
def oversizePanel : Panel := ⟨"B", 100, 3000, 3000, 9000⟩

/-- A well-formed panel whose type label is the empty string. -/
def blankTypePanel : Panel := ⟨"", 100, 100, 100, 10⟩

/-- Depth-1300 panel (order-sensitivity fixture). -/
def dpA : Panel := ⟨"A", 100, 100, 1300, 100⟩

/-- Depth-1300 panel (order-sensitivity fixture). -/
def dpB : Panel := ⟨"B", 100, 100, 1300, 100⟩

/-- Depth-1100 panel (order-sensitivity fixture). -/
def dpC : Panel := ⟨"C", 100, 100, 1100, 100⟩

/-- Depth-1100 panel (order-sensitivity fixture). -/
def dpD : Panel := ⟨"D", 100, 100, 1100, 100⟩

/-- Depth-1300 weight-800 panel (end-to-end example fixture). -/
def fixA : Panel := ⟨"A", 100, 100, 1300, 800⟩

/-- Depth-1000 weight-800 panel (end-to-end example fixture). -/
def fixB1 : Panel := ⟨"B1", 100, 100, 1000, 800⟩

/-- Depth-1000 weight-800 panel (end-to-end example fixture). -/
def fixB2 : Panel := ⟨"B2", 100, 100, 1000, 800⟩

/-- Depth-1000 weight-800 panel (end-to-end example fixture). -/
def fixB3 : Panel := ⟨"B3", 100, 100, 1000, 800⟩

theorem placePanel_eq_ffPlace (bed_width bed_weight_limit : ℚ)
    (bins : List (List Panel)) (p : Panel) :
    placePanel bed_width bed_weight_limit bins p
      = ffPlace (bedAdmits bed_width bed_weight_limit) bins p := by
  induction bins with
  | nil => rfl
  | cons bin rest ih =>
    simp only [placePanel, ffPlace, bedAdmits, Bool.and_eq_true,
      decide_eq_true_eq, ih]

theorem placeBed_eq_ffPlace (truck_max_length truck_weight_limit : ℚ)
    (bins : List (List BedSummary)) (b : BedSummary) :
    placeBed truck_max_length truck_weight_limit bins b
      = ffPlace (truckAdmits truck_max_length truck_weight_limit) bins b := by
  induction bins with
  | nil => rfl
  | cons bin rest ih =>
    simp only [placeBed, ffPlace, truckAdmits, Bool.and_eq_true,
      decide_eq_true_eq, ih]

theorem packBeds_eq_ffFold (bed_width bed_weight_limit : ℚ)
    (panels : List Panel) :
    packBeds bed_width bed_weight_limit panels
      = panels.foldl (ffPlace (bedAdmits bed_width bed_weight_limit)) [] := by
  unfold packBeds
  congr 1
  funext bins p
  exact placePanel_eq_ffPlace bed_width bed_weight_limit bins p

theorem packTrucks_eq_ffFold (truck_max_length truck_weight_limit : ℚ)
    (beds : List BedSummary) :
    packTrucks truck_max_length truck_weight_limit beds
      = beds.foldl (ffPlace (truckAdmits truck_max_length truck_weight_limit)) [] := by
  unfold packTrucks
  congr 1
  funext bins b
  exact placeBed_eq_ffPlace truck_max_length truck_weight_limit bins b

/-- The code's placement loop coincides with the spec-side first-fit step. -/
theorem ffPlace_eq_firstFitStep {α : Type} (admits : List α → α → Bool)
    (bins : List (List α)) (x : α) :
    ffPlace admits bins x = firstFitStep admits bins x := by
  induction bins with
  | nil => rfl
  | cons bin rest ih =>
    by_cases h : admits bin x = true
    · simp [ffPlace, firstFitStep, h, firstFitInsert]
    · simp only [Bool.not_eq_true] at h
      simp only [ffPlace, h, Bool.false_eq_true, if_false, ih,
        firstFitStep, List.findIdx?_cons, Nat.zero_add, List.findIdx?_start_succ]
      cases hfind : rest.findIdx? (fun bin => admits bin x) with
      | none => simp [h, hfind]
      | some i =>
        simp [h, hfind, firstFitInsert]

theorem compute_fst (panels : List Panel)
    (bed_width bed_weight_limit truck_weight_limit truck_max_length : ℚ) :
    (compute_beds_and_trucks panels bed_width bed_weight_limit
        truck_weight_limit truck_max_length).1
      = (packBeds bed_width bed_weight_limit panels).map (summarize bed_width) :=
  rfl

theorem compute_snd (panels : List Panel)
    (bed_width bed_weight_limit truck_weight_limit truck_max_length : ℚ) :
    (compute_beds_and_trucks panels bed_width bed_weight_limit
        truck_weight_limit truck_max_length).2
      = packTrucks truck_max_length truck_weight_limit
          ((packBeds bed_width bed_weight_limit panels).map (summarize bed_width)) :=
  rfl

/-- Placing one item only appends it somewhere: the concatenation of all
bins after a placement is a permutation of the old concatenation plus the
new item. -/
theorem ffPlace_join_perm {α : Type} (admits : List α → α → Bool)
    (bins : List (List α)) (x : α) :
    List.Perm (ffPlace admits bins x).flatten (bins.flatten ++ [x]) := by
  induction bins with
  | nil => simp [ffPlace]
  | cons bin rest ih =>
    by_cases h : admits bin x = true
    · simp only [ffPlace, h, if_true, List.flatten_cons, List.append_assoc]
      exact List.Perm.append_left bin (List.perm_append_comm)
    · simp only [ffPlace, h, Bool.false_eq_true, if_false, List.flatten_cons,
        List.append_assoc]
      exact List.Perm.append_left bin ih

theorem ffFold_join_perm {α : Type} (admits : List α → α → Bool)
    (xs : List α) :
    ∀ bins, List.Perm ((xs.foldl (ffPlace admits) bins).flatten)
      (bins.flatten ++ xs) := by
  induction xs with
  | nil => intro bins; simp
  | cons x xs ih =>
    intro bins
    simp only [List.foldl_cons]
    refine (ih (ffPlace admits bins x)).trans ?_
    have h := (ffPlace_join_perm admits bins x).append_right xs
    have heq : (bins.flatten ++ [x]) ++ xs = bins.flatten ++ (x :: xs) := by
      simp
    exact heq ▸ h

/-- A bin property that holds of every fresh singleton bin and of every
bin extended by an admitted item is preserved by placement. -/
theorem ffPlace_forall {α : Type} {admits : List α → α → Bool}
    (P : List α → Prop) (hnew : ∀ x, P [x])
    (hjoin : ∀ bin x, admits bin x = true → P (bin ++ [x])) :
    ∀ bins x, (∀ b ∈ bins, P b) → ∀ b ∈ ffPlace admits bins x, P b := by
  intro bins
  induction bins with
  | nil =>
    intro x _ b hb
    simp only [ffPlace, List.mem_singleton] at hb
    subst hb
    exact hnew x
  | cons bin rest ih =>
    intro x h b hb
    by_cases hadm : admits bin x = true
    · simp only [ffPlace, hadm, if_true, List.mem_cons] at hb
      rcases hb with hb | hb
      · subst hb; exact hjoin bin x hadm
      · exact h b (List.mem_cons_of_mem _ hb)
    · simp only [ffPlace, hadm, Bool.false_eq_true, if_false,
        List.mem_cons] at hb
      rcases hb with hb | hb
      · subst hb; exact h b (List.mem_cons_self _ _)
      · exact ih x (fun c hc => h c (List.mem_cons_of_mem _ hc)) b hb

theorem ffFold_forall {α : Type} {admits : List α → α → Bool}
    (P : List α → Prop) (hnew : ∀ x, P [x])
    (hjoin : ∀ bin x, admits bin x = true → P (bin ++ [x])) :
    ∀ (xs : List α) bins, (∀ b ∈ bins, P b) →
      ∀ b ∈ xs.foldl (ffPlace admits) bins, P b := by
  intro xs
  induction xs with
  | nil => intro bins h; simpa using h
  | cons x xs ih =>
    intro bins h
    simp only [List.foldl_cons]
    exact ih (ffPlace admits bins x) (ffPlace_forall P hnew hjoin bins x h)

/-- Placement keeps every bin a subsequence of the processed input. -/
theorem ffPlace_sublist {α : Type} (admits : List α → α → Bool)
    (bins : List (List α)) (pre : List α) (x : α)
    (h : ∀ b ∈ bins, b.Sublist pre) :
    ∀ b ∈ ffPlace admits bins x, b.Sublist (pre ++ [x]) := by
  induction bins with
  | nil =>
    intro b hb
    simp only [ffPlace, List.mem_singleton] at hb
    subst hb
    exact List.sublist_append_right pre [x]
  | cons bin rest ih =>
    intro b hb
    by_cases hadm : admits bin x = true
    · simp only [ffPlace, hadm, if_true, List.mem_cons] at hb
      rcases hb with hb | hb
      · subst hb
        exact (h bin (List.mem_cons_self _ _)).append (List.Sublist.refl [x])
      · exact ((h b (List.mem_cons_of_mem _ hb)).trans
          (List.sublist_append_left pre [x]))
    · simp only [ffPlace, hadm, Bool.false_eq_true, if_false,
        List.mem_cons] at hb
      rcases hb with hb | hb
      · subst hb
        exact ((h b (List.mem_cons_self _ _)).trans
          (List.sublist_append_left pre [x]))
      · exact ih (fun c hc => h c (List.mem_cons_of_mem _ hc)) b hb

theorem ffFold_sublist {α : Type} (admits : List α → α → Bool) :
    ∀ (xs : List α) (bins : List (List α)) (pre : List α),
      (∀ b ∈ bins, b.Sublist pre) →
      ∀ b ∈ xs.foldl (ffPlace admits) bins, b.Sublist (pre ++ xs) := by
  intro xs
  induction xs with
  | nil => intro bins pre h; simpa using h
  | cons x xs ih =>
    intro bins pre h
    simp only [List.foldl_cons]
    have step := ffPlace_sublist admits bins pre x h
    have := ih (ffPlace admits bins x) (pre ++ [x]) step
    simpa using this

/-- Placement never touches the first element of the first bin. -/
theorem ffPlace_head {α : Type} (admits : List α → α → Bool) (a : α)
    (t : List α) (rest : List (List α)) (x : α) :
    ∃ t' rest', ffPlace admits ((a :: t) :: rest) x = (a :: t') :: rest' := by
  by_cases h : admits (a :: t) x = true
  · exact ⟨t ++ [x], rest, by simp [ffPlace, h]⟩
  · exact ⟨t, ffPlace admits rest x, by simp [ffPlace, h]⟩

theorem ffFold_head {α : Type} (admits : List α → α → Bool) :
    ∀ (xs : List α) (a : α) (t : List α) (rest : List (List α)),
      ∃ t' rest',
        xs.foldl (ffPlace admits) ((a :: t) :: rest) = (a :: t') :: rest' := by
  intro xs
  induction xs with
  | nil => exact fun a t rest => ⟨t, rest, rfl⟩
  | cons x xs ih =>
    intro a t rest
    obtain ⟨t1, r1, h1⟩ := ffPlace_head admits a t rest x
    simp only [List.foldl_cons, h1]
    exact ih a t1 r1

/-- Placing one item either leaves the sequence of bin heads unchanged
(when an existing non-empty bin admits it) or appends the item as the head
of a fresh bin at the end. -/
theorem ffPlace_heads {α : Type} (admits : List α → α → Bool)
    (bins : List (List α)) (x : α) (hne : ∀ b ∈ bins, b ≠ []) :
    (ffPlace admits bins x).filterMap List.head?
        = bins.filterMap List.head? ∨
    (ffPlace admits bins x).filterMap List.head?
        = bins.filterMap List.head? ++ [x] := by
  induction bins with
  | nil =>
    right
    simp [ffPlace]
  | cons bin rest ih =>
    have hbin : bin ≠ [] := hne bin (List.mem_cons_self _ _)
    cases bin with
    | nil => exact absurd rfl hbin
    | cons a t =>
      by_cases h : admits (a :: t) x = true
      · left
        simp [ffPlace, h]
      · have ih2 := ih fun c hc => hne c (List.mem_cons_of_mem _ hc)
        rcases ih2 with ih2 | ih2
        · left
          simp only [ffPlace, h, Bool.false_eq_true, if_false]
          simp [List.filterMap_cons, ih2]
        · right
          simp only [ffPlace, h, Bool.false_eq_true, if_false]
          simp [List.filterMap_cons, ih2]

/-- Bins are kept in the order they were opened: the heads of the bins
(each the item that opened its bin) form a subsequence of the processed
input. -/
theorem ffFold_heads {α : Type} (admits : List α → α → Bool) :
    ∀ (xs : List α) (bins : List (List α)) (pre : List α),
      (∀ b ∈ bins, b ≠ []) →
      (bins.filterMap List.head?).Sublist pre →
      ((xs.foldl (ffPlace admits) bins).filterMap List.head?).Sublist
        (pre ++ xs) := by
  intro xs
  induction xs with
  | nil =>
    intro bins pre _ h
    simpa using h
  | cons x xs ih =>
    intro bins pre hne h
    simp only [List.foldl_cons]
    have hne2 : ∀ b ∈ ffPlace admits bins x, b ≠ [] :=
      ffPlace_forall (fun b => b ≠ []) (fun _ => List.cons_ne_nil _ _)
        (fun bin y _ => by simp) bins x hne
    have hsub : ((ffPlace admits bins x).filterMap List.head?).Sublist
        (pre ++ [x]) := by
      rcases ffPlace_heads admits bins x hne with heq | heq
      · rw [heq]
        exact h.trans (List.sublist_append_left pre [x])
      · rw [heq]
        exact h.append (List.Sublist.refl [x])
    have hres := ih (ffPlace admits bins x) (pre ++ [x]) hne2 hsub
    simpa using hres

/-- The code's bed-placement loop is exactly the generic placement with the
bed admission criterion. -/
theorem placePanel_funext (bed_width bed_weight_limit : ℚ) :
    placePanel bed_width bed_weight_limit
      = ffPlace (bedAdmits bed_width bed_weight_limit) :=
  funext fun bins => funext fun p =>
    placePanel_eq_ffPlace bed_width bed_weight_limit bins p

/-- The code's truck-placement loop is exactly the generic placement with
the truck admission criterion. -/
theorem placeBed_funext (truck_max_length truck_weight_limit : ℚ) :
    placeBed truck_max_length truck_weight_limit
      = ffPlace (truckAdmits truck_max_length truck_weight_limit) :=
  funext fun bins => funext fun b =>
    placeBed_eq_ffPlace truck_max_length truck_weight_limit bins b

/-- The code's bed-packing pass is the spec-side first-fit pass. -/
theorem packBeds_eq_firstFit (bed_width bed_weight_limit : ℚ)
    (panels : List Panel) :
    packBeds bed_width bed_weight_limit panels
      = firstFit (bedAdmits bed_width bed_weight_limit) panels := by
  unfold packBeds firstFit
  rw [placePanel_funext]
  congr 1
  funext bins x
  exact ffPlace_eq_firstFitStep _ bins x

/-- The code's truck-packing pass is the spec-side first-fit pass. -/
theorem packTrucks_eq_firstFit (truck_max_length truck_weight_limit : ℚ)
    (beds : List BedSummary) :
    packTrucks truck_max_length truck_weight_limit beds
      = firstFit (truckAdmits truck_max_length truck_weight_limit) beds := by
  unfold packTrucks firstFit
  rw [placeBed_funext]
  congr 1
  funext bins x
  exact ffPlace_eq_firstFitStep _ bins x

/-- If no open bin admits the item, placement appends a fresh singleton
bin at the end. -/
theorem ffPlace_no_fit {α : Type} (admits : List α → α → Bool)
    (bins : List (List α)) (x : α)
    (h : ∀ bin ∈ bins, admits bin x = false) :
    ffPlace admits bins x = bins ++ [[x]] := by
  induction bins with
  | nil => rfl
  | cons bin rest ih =>
    have hbin := h bin (List.mem_cons_self _ _)
    simp only [ffPlace, hbin, Bool.false_eq_true, if_false, List.cons_append]
    rw [ih fun c hc => h c (List.mem_cons_of_mem _ hc)]

/-- Every bin produced by the fold is non-empty. -/
theorem ffFold_ne_nil {α : Type} (admits : List α → α → Bool)
    (xs : List α) :
    ∀ b ∈ xs.foldl (ffPlace admits) [], b ≠ [] :=
  ffFold_forall (fun b => b ≠ [])
    (fun _ => List.cons_ne_nil _ _)
    (fun bin x _ => by simp)
    xs [] (by simp)

/-- `listMax` of a non-empty list is an element of the list. -/
theorem listMax_mem : ∀ (l : List ℚ) (x : ℚ), listMax (x :: l) ∈ x :: l := by
  intro l
  induction l with
  | nil => intro x; simp [listMax]
  | cons y rest ih =>
    intro x
    rcases le_total x (listMax (y :: rest)) with h | h
    · rw [listMax, max_eq_right h]
      exact List.mem_cons_of_mem x (ih y)
    · rw [listMax, max_eq_left h]
      exact List.mem_cons_self _ _

/-- `listMax` of a non-empty list bounds every element. -/
theorem le_listMax : ∀ (l : List ℚ) (x z : ℚ), z ∈ x :: l →
    z ≤ listMax (x :: l) := by
  intro l
  induction l with
  | nil =>
    intro x z hz
    simp only [List.mem_singleton] at hz
    subst hz
    simp [listMax]
  | cons y rest ih =>
    intro x z hz
    rcases List.mem_cons.mp hz with hz | hz
    · subst hz
      rw [listMax]
      exact le_max_left _ _
    · rw [listMax]
      exact le_trans (ih y z hz) (le_max_right _ _)

/-! ## The claims -/

/-- C1: the bed-packing pass of `compute_beds_and_trucks` is exactly
first-fit over depth and weight against `bed_width` and
`bed_weight_limit`, and the truck-packing pass is the identical first-fit
algorithm over the bed summaries (in bed-creation order) with length and
weight against `truck_max_length` and `truck_weight_limit`. -/
theorem claim_C1 (panels : List Panel)
    (bed_width bed_weight_limit truck_weight_limit truck_max_length : ℚ) :
    (compute_beds_and_trucks panels bed_width bed_weight_limit
        truck_weight_limit truck_max_length).1
      = (firstFit (bedAdmits bed_width bed_weight_limit) panels).map
          (summarize bed_width) ∧
    (compute_beds_and_trucks panels bed_width bed_weight_limit
        truck_weight_limit truck_max_length).2
      = firstFit (truckAdmits truck_max_length truck_weight_limit)
          ((firstFit (bedAdmits bed_width bed_weight_limit) panels).map
            (summarize bed_width)) := by
  constructor
  · rw [compute_fst, packBeds_eq_firstFit]
  · rw [compute_snd, packTrucks_eq_firstFit, packBeds_eq_firstFit]

/-- C2: every produced bed keeps total member depth within `bed_width` and
total member weight within `bed_weight_limit`, except possibly when the bed
has exactly one member; analogously every produced truck keeps total bed
length within `truck_max_length` and total weight within
`truck_weight_limit`, except possibly when it has exactly one bed. -/
theorem claim_C2 (panels : List Panel)
    (bed_width bed_weight_limit truck_weight_limit truck_max_length : ℚ) :
    (∀ bed ∈ packBeds bed_width bed_weight_limit panels,
      ((bed.map fun p => p.Depth).sum ≤ bed_width ∨ bed.length = 1) ∧
      ((bed.map fun p => p.Weight).sum ≤ bed_weight_limit ∨ bed.length = 1)) ∧
    (∀ truck ∈ (compute_beds_and_trucks panels bed_width bed_weight_limit
        truck_weight_limit truck_max_length).2,
      ((truck.map fun b => b.Length).sum ≤ truck_max_length ∨
          truck.length = 1) ∧
      ((truck.map fun b => b.Weight).sum ≤ truck_weight_limit ∨
          truck.length = 1)) := by
  constructor
  · intro bed hbed
    rw [packBeds_eq_ffFold] at hbed
    refine ffFold_forall
      (fun b => ((b.map fun p => p.Depth).sum ≤ bed_width ∨ b.length = 1) ∧
        ((b.map fun p => p.Weight).sum ≤ bed_weight_limit ∨ b.length = 1))
      (fun x => ⟨Or.inr rfl, Or.inr rfl⟩)
      (fun bin x hadm => ?_) panels [] (by simp) bed hbed
    simp only [bedAdmits, Bool.and_eq_true, decide_eq_true_eq] at hadm
    constructor
    · left
      simpa [List.map_append, List.sum_append] using hadm.1
    · left
      simpa [List.map_append, List.sum_append] using hadm.2
  · intro truck htruck
    rw [compute_snd, packTrucks_eq_ffFold] at htruck
    refine ffFold_forall
      (fun t => ((t.map fun b => b.Length).sum ≤ truck_max_length ∨
          t.length = 1) ∧
        ((t.map fun b => b.Weight).sum ≤ truck_weight_limit ∨
          t.length = 1))
      (fun x => ⟨Or.inr rfl, Or.inr rfl⟩)
      (fun bin x hadm => ?_) _ [] (by simp) truck htruck
    simp only [truckAdmits, Bool.and_eq_true, decide_eq_true_eq] at hadm
    constructor
    · left
      simpa [List.map_append, List.sum_append] using hadm.1
    · left
      simpa [List.map_append, List.sum_append] using hadm.2

/-- C2 witness: the capacity invariant instantiated on the one bed produced
from a single small panel. -/
theorem claim_C2_witness :
    ([wPanel].map fun p => p.Depth).sum ≤ (2400 : ℚ) ∨
      ([wPanel] : List Panel).length = 1 :=
  ((claim_C2 [wPanel] 2400 2500 15000 13620).1 [wPanel]
    (List.mem_singleton_self _)).1

/-- C3: conservation — the multiset of panels across all produced beds is
the multiset of input panels, and the multiset of bed summaries across all
produced trucks is the multiset of produced bed summaries. -/
theorem claim_C3 (panels : List Panel)
    (bed_width bed_weight_limit truck_weight_limit truck_max_length : ℚ) :
    ((packBeds bed_width bed_weight_limit panels).flatten : Multiset Panel)
        = (panels : Multiset Panel) ∧
    (((compute_beds_and_trucks panels bed_width bed_weight_limit
          truck_weight_limit truck_max_length).2.flatten : Multiset BedSummary)
        = ((compute_beds_and_trucks panels bed_width bed_weight_limit
          truck_weight_limit truck_max_length).1 : Multiset BedSummary)) := by
  constructor
  · rw [Multiset.coe_eq_coe, packBeds_eq_ffFold]
    simpa using ffFold_join_perm (bedAdmits bed_width bed_weight_limit)
      panels []
  · rw [Multiset.coe_eq_coe, compute_snd, compute_fst, packTrucks_eq_ffFold]
    simpa using ffFold_join_perm
      (truckAdmits truck_max_length truck_weight_limit)
      ((packBeds bed_width bed_weight_limit panels).map
        (summarize bed_width)) []

/-- C4 (amended): for every bed produced by the packing pass, its summary
has `Length` equal to the maximum member width, `Height` equal to the
maximum member height, `Width` equal to the `bed_width` capacity constant,
`Weight` equal to the sum of member weights, panel count equal to the
number of members, and its panel-type field equal to the list of the
*stripped* type labels of those members whose stripped, lowercased label
is none of `""`, `"nan"`, `"none"` (the code filters and strips labels, so
the field is not in general the multiset of the raw member labels). -/
theorem claim_C4 (panels : List Panel) (bed_width bed_weight_limit : ℚ)
    (bed : List Panel)
    (hbed : bed ∈ packBeds bed_width bed_weight_limit panels) :
    ((summarize bed_width bed).Length ∈ bed.map (fun p => p.Width) ∧
      ∀ p ∈ bed, p.Width ≤ (summarize bed_width bed).Length) ∧
    ((summarize bed_width bed).Height ∈ bed.map (fun p => p.Height) ∧
      ∀ p ∈ bed, p.Height ≤ (summarize bed_width bed).Height) ∧
    (summarize bed_width bed).Width = bed_width ∧
    (summarize bed_width bed).Weight = (bed.map fun p => p.Weight).sum ∧
    (summarize bed_width bed).numPanels = bed.length ∧
    (summarize bed_width bed).panelTypes
      = (bed.filter fun p => keepType p.ptype).map fun p => pyStrip p.ptype := by
  have hne : bed ≠ [] := by
    rw [packBeds_eq_ffFold] at hbed
    exact ffFold_ne_nil _ panels bed hbed
  cases bed with
  | nil => exact absurd rfl hne
  | cons p rest =>
    refine ⟨⟨?_, ?_⟩, ⟨?_, ?_⟩, rfl, rfl, rfl, rfl⟩
    · show listMax ((p :: rest).map fun q => q.Width)
        ∈ (p :: rest).map fun q => q.Width
      rw [List.map_cons]
      exact listMax_mem _ _
    · intro q hq
      show q.Width ≤ listMax ((p :: rest).map fun r => r.Width)
      rw [List.map_cons]
      refine le_listMax _ _ _ ?_
      rcases List.mem_cons.mp hq with h | h
      · subst h
        exact List.mem_cons_self _ _
      · exact List.mem_cons_of_mem _ (List.mem_map_of_mem _ h)
    · show listMax ((p :: rest).map fun q => q.Height)
        ∈ (p :: rest).map fun q => q.Height
      rw [List.map_cons]
      exact listMax_mem _ _
    · intro q hq
      show q.Height ≤ listMax ((p :: rest).map fun r => r.Height)
      rw [List.map_cons]
      refine le_listMax _ _ _ ?_
      rcases List.mem_cons.mp hq with h | h
      · subst h
        exact List.mem_cons_self _ _
      · exact List.mem_cons_of_mem _ (List.mem_map_of_mem _ h)

/-- C4 counterexample: for a single panel whose type label is the empty
string, the produced bed's summary has an empty panel-type field, which is
not the multiset of the member type labels (that multiset holds `""`). -/
theorem claim_C4_counterexample :
    packBeds 2400 2500 [blankTypePanel] = [[blankTypePanel]] ∧
    (compute_beds_and_trucks [blankTypePanel] 2400 2500 15000 13620).1
      = [summarize 2400 [blankTypePanel]] ∧
    ¬ (((summarize 2400 [blankTypePanel]).panelTypes : Multiset String)
        = (([blankTypePanel].map fun p => p.ptype) : Multiset String)) := by
  refine ⟨rfl, rfl, ?_⟩
  intro h
  rw [Multiset.coe_eq_coe] at h
  have hlen := h.length_eq
  simp [summarize, blankTypePanel, keepType, pyStrip, pyLower] at hlen

/-- C4 witness: the amended summary facts instantiated on the bed produced
from a single small panel. -/
theorem claim_C4_witness :
    (summarize 2400 [wPanel]).Width = 2400 ∧
    (summarize 2400 [wPanel]).Length ∈ [wPanel].map fun p => p.Width := by
  have h := claim_C4 [wPanel] 2400 2500 [wPanel] (List.mem_singleton_self _)
  exact ⟨h.2.2.1, h.1.1⟩

/-- C5: a single panel is never rejected: on a one-panel input the packer
returns exactly one bed holding that panel (whatever its dimensions and
weight relative to the limits), with summary `Weight` the panel's weight
and `Length` the panel's width; in general, when no open bed admits a
panel, the panel is placed in a fresh lone-panel bed appended at the end
rather than being rejected. -/
theorem claim_C5 (p : Panel)
    (bed_width bed_weight_limit truck_weight_limit truck_max_length : ℚ)
    (bins : List (List Panel))
    (hbins : ∀ bin ∈ bins, bedAdmits bed_width bed_weight_limit bin p = false) :
    packBeds bed_width bed_weight_limit [p] = [[p]] ∧
    (compute_beds_and_trucks [p] bed_width bed_weight_limit
        truck_weight_limit truck_max_length).1 = [summarize bed_width [p]] ∧
    (summarize bed_width [p]).Weight = p.Weight ∧
    (summarize bed_width [p]).Length = p.Width ∧
    placePanel bed_width bed_weight_limit bins p = bins ++ [[p]] := by
  refine ⟨rfl, rfl, ?_, ?_, ?_⟩
  · show ([p].map fun q => q.Weight).sum = p.Weight
    simp
  · show listMax ([p].map fun q => q.Width) = p.Width
    simp [listMax]
  · rw [placePanel_eq_ffPlace]
    exact ffPlace_no_fit _ bins p hbins

/-- C5 witness: a panel with depth 3000 > 2400 and weight 9000 > 2500 is
still placed alone in its own bed, and is appended as a fresh bed after an
open bed that does not admit it. -/
theorem claim_C5_witness :
    (2400 : ℚ) < oversizePanel.Depth ∧
    (packBeds 2400 2500 [oversizePanel] = [[oversizePanel]] ∧
      (compute_beds_and_trucks [oversizePanel] 2400 2500 15000 13620).1
        = [summarize 2400 [oversizePanel]] ∧
      (summarize 2400 [oversizePanel]).Weight = oversizePanel.Weight ∧
      (summarize 2400 [oversizePanel]).Length = oversizePanel.Width ∧
      placePanel 2400 2500 [[wPanel]] oversizePanel
        = [[wPanel]] ++ [[oversizePanel]]) := by
  refine ⟨by norm_num [oversizePanel], ?_⟩
  apply claim_C5
  intro bin hbin
  simp only [List.mem_singleton] at hbin
  subst hbin
  norm_num [bedAdmits, wPanel, oversizePanel]

/-- C6: the core is total — on the empty input it returns no beds and no
trucks, and on any input it returns a valid result in which every bed and
every truck is non-empty (no exception, no error value). -/
theorem claim_C6 (panels : List Panel)
    (bed_width bed_weight_limit truck_weight_limit truck_max_length : ℚ) :
    compute_beds_and_trucks [] bed_width bed_weight_limit
        truck_weight_limit truck_max_length = ([], []) ∧
    ((packBeds bed_width bed_weight_limit panels).all
        fun bed => !bed.isEmpty) = true ∧
    (((compute_beds_and_trucks panels bed_width bed_weight_limit
        truck_weight_limit truck_max_length).2).all
        fun truck => !truck.isEmpty) = true := by
  refine ⟨rfl, ?_, ?_⟩
  · rw [List.all_eq_true]
    intro bed hbed
    rw [packBeds_eq_ffFold] at hbed
    have hne := ffFold_ne_nil _ panels bed hbed
    simpa using hne
  · rw [List.all_eq_true]
    intro truck htruck
    rw [compute_snd, packTrucks_eq_ffFold] at htruck
    have hne := ffFold_ne_nil _ _ truck htruck
    simpa using hne

/-- C7: the packing is order-sensitive first-fit, not order-invariant
optimal packing: the four panels with depths 1300, 1300, 1100, 1100 pack
into 2 beds in that order, while the permutation placing the 1100s first
packs into 3 beds, under the default limits. -/
theorem claim_C7 :
    List.Perm [dpA, dpB, dpC, dpD] [dpC, dpD, dpA, dpB] ∧
    (compute_beds_and_trucks [dpA, dpB, dpC, dpD]
        2400 2500 15000 13620).1.length = 2 ∧
    (compute_beds_and_trucks [dpC, dpD, dpA, dpB]
        2400 2500 15000 13620).1.length = 3 := by
  refine ⟨?_, ?_, ?_⟩
  · exact show ([dpA, dpB] ++ [dpC, dpD]).Perm ([dpC, dpD] ++ [dpA, dpB])
      from List.perm_append_comm
  · norm_num [compute_beds_and_trucks, packBeds, placePanel,
      dpA, dpB, dpC, dpD]
  · norm_num [compute_beds_and_trucks, packBeds, placePanel,
      dpA, dpB, dpC, dpD]

/-- C8: three panels of depth 1300 and weight 800 yield 3 beds of one
panel each; three panels of depth 1000 and weight 800 yield 2 beds, the
first two panels sharing the first bed and the third alone in the second,
under the default limits. -/
theorem claim_C8 :
    packBeds 2400 2500 [fixA, fixA, fixA] = [[fixA], [fixA], [fixA]] ∧
    ((compute_beds_and_trucks [fixA, fixA, fixA]
        2400 2500 15000 13620).1.map fun s => s.numPanels) = [1, 1, 1] ∧
    packBeds 2400 2500 [fixB1, fixB2, fixB3] = [[fixB1, fixB2], [fixB3]] ∧
    (compute_beds_and_trucks [fixB1, fixB2, fixB3]
        2400 2500 15000 13620).1.length = 2 := by
  refine ⟨?_, ?_, ?_, ?_⟩
  · norm_num [packBeds, placePanel, fixA]
  · norm_num [compute_beds_and_trucks, packBeds, placePanel, summarize,
      fixA]
  · norm_num [packBeds, placePanel, fixB1, fixB2, fixB3]
  · norm_num [compute_beds_and_trucks, packBeds, placePanel,
      fixB1, fixB2, fixB3]

/-- C9: determinism — two runs on equal input sequences with equal
configuration constants produce equal results (the allocator is a pure
function of its arguments; it iterates only over ordered lists). -/
theorem claim_C9 (panelsA panelsB : List Panel)
    (bwA bwB bwlA bwlB twlA twlB tmlA tmlB : ℚ)
    (hp : panelsA = panelsB) (hbw : bwA = bwB) (hbwl : bwlA = bwlB)
    (htwl : twlA = twlB) (html : tmlA = tmlB) :
    compute_beds_and_trucks panelsA bwA bwlA twlA tmlA
      = compute_beds_and_trucks panelsB bwB bwlB twlB tmlB := by
  rw [hp, hbw, hbwl, htwl, html]

/-- C9 witness: determinism instantiated at a concrete run. -/
theorem claim_C9_witness :
    compute_beds_and_trucks [wPanel] 2400 2500 15000 13620
      = compute_beds_and_trucks [wPanel] 2400 2500 15000 13620 :=
  claim_C9 [wPanel] [wPanel] 2400 2400 2500 2500 15000 15000 13620 13620
    rfl rfl rfl rfl rfl

/-- C10: order preservation — every produced bed is a subsequence of the
input panel sequence (members keep their relative input order); beds are
output in the order they were opened: each bed's first member is the panel
that opened it, and the sequence of these bed heads (in output order) is a
subsequence of the input; every produced truck is a subsequence of the
bed-summary sequence, and the truck heads likewise form a subsequence of
the summaries; on a non-empty input the first input panel is the first
member of the first bed. -/
theorem claim_C10 (panels : List Panel)
    (bed_width bed_weight_limit truck_weight_limit truck_max_length : ℚ) :
    (∀ bed ∈ packBeds bed_width bed_weight_limit panels,
      bed.Sublist panels) ∧
    ((packBeds bed_width bed_weight_limit panels).filterMap
        List.head?).Sublist panels ∧
    (∀ truck ∈ (compute_beds_and_trucks panels bed_width bed_weight_limit
        truck_weight_limit truck_max_length).2,
      truck.Sublist (compute_beds_and_trucks panels bed_width
        bed_weight_limit truck_weight_limit truck_max_length).1) ∧
    (((compute_beds_and_trucks panels bed_width bed_weight_limit
        truck_weight_limit truck_max_length).2).filterMap
          List.head?).Sublist
      (compute_beds_and_trucks panels bed_width bed_weight_limit
        truck_weight_limit truck_max_length).1 ∧
    (∀ p ps, panels = p :: ps →
      ∃ tl rest, packBeds bed_width bed_weight_limit panels
        = (p :: tl) :: rest) := by
  refine ⟨?_, ?_, ?_, ?_, ?_⟩
  · intro bed hbed
    rw [packBeds_eq_ffFold] at hbed
    simpa using ffFold_sublist _ panels [] [] (by simp) bed hbed
  · rw [packBeds_eq_ffFold]
    simpa using ffFold_heads _ panels [] [] (by simp) (by simp)
  · intro truck htruck
    rw [compute_snd, packTrucks_eq_ffFold] at htruck
    rw [compute_fst]
    simpa using ffFold_sublist _ _ [] [] (by simp) truck htruck
  · rw [compute_snd, compute_fst, packTrucks_eq_ffFold]
    simpa using ffFold_heads _
      ((packBeds bed_width bed_weight_limit panels).map
        (summarize bed_width)) [] [] (by simp) (by simp)
  · intro p ps hps
    subst hps
    unfold packBeds
    rw [placePanel_funext, List.foldl_cons]
    exact ffFold_head _ ps p [] []

/-- C10 witness: order preservation instantiated on a one-panel input. -/
theorem claim_C10_witness :
    ([wPanel] : List Panel).Sublist [wPanel] ∧
    ((packBeds 2400 2500 [wPanel]).filterMap List.head?).Sublist [wPanel] ∧
    (∃ tl rest, packBeds 2400 2500 [wPanel] = (wPanel :: tl) :: rest) := by
  have h := claim_C10 [wPanel] 2400 2500 15000 13620
  exact ⟨h.1 [wPanel] (List.mem_singleton_self _), h.2.1,
    h.2.2.2.2 wPanel [] rfl⟩

end GRC
